import Mathlib

/-!
Verification of the `timed-writer` program (src/timed-writer.c) against its
natural-language specification.

The embedding below translates the two phases of the program:

* `parseArgs` / `tokLoop` / `doCluster` / `validateOpt` embed `main`
  (timed-writer.c:168-238): GNU `getopt` processing of the option string
  `"s:c:b:f:lh"` (options are scanned left to right, non-option arguments
  are collected, `--` ends option scanning), `atol` conversion of the
  numeric arguments, the bounds checks, and the final
  `optind + 1 != argc` check.
* `writerLoop` / `line_writer` embed `line_writer` (timed-writer.c:64-165):
  the write buffer (`malloc` + `memset '\r'`), the `open`/`flock` gates,
  and the iterate-write-classify-sleep loop.  System-call outcomes that
  the program merely observes (whether `open` succeeds, whether `flock`
  succeeds, what each `write` returns) are supplied by an `Env`.
* `processExit` / `runProcess` embed the process exit status: `main` calls
  `exit()` for validation errors and help, `line_writer` calls
  `exit(EXIT_FAILURE)` when the consecutive-failure cap is reached, and
  otherwise `main` returns 0 while discarding `line_writer`'s return value.

Machine integers: `long` values are modelled as `Int` (no overflow occurs
for inputs whose value fits in 64 bits; `atol` overflow is undefined
behaviour in C and is out of scope).  The assignment of the `atol` result
to the `int` variable `blocksize` (timed-writer.c:209) truncates on every
real platform; it is modelled by `wrap32` (two's-complement wrap-around).
Bytes are modelled as `Nat` values (`13` is `'\r'`, `10` is `'\n'`, `0` is
the NUL terminator copied by `strcpy`, `48 + d` is the ASCII digit `d`).
-/

namespace TimedWriter

/-- `INTERVAL_DEFAULT` from timed-writer.c:27. -/
def INTERVAL_DEFAULT : Int := 5

/-- `INTERVAL_MIN` from timed-writer.c:28. -/
def INTERVAL_MIN : Int := 1

/-- `INTERVAL_MAX = 60*60` from timed-writer.c:29. -/
def INTERVAL_MAX : Int := 3600

/-- `ITERATION_MAX` from timed-writer.c:30, also the default iteration count. -/
def ITERATION_MAX : Int := 666

/-- `FAILURE_MAX` from timed-writer.c:31. -/
def FAILURE_MAX : Int := 100

/-- `FAILURE_DEFAULT` from timed-writer.c:32. -/
def FAILURE_DEFAULT : Int := 5

/-- `BS_DEF` from timed-writer.c:33. -/
def BS_DEF : Nat := 1024

/-- `BS_MAX = 1024 * 1024 * 32` from timed-writer.c:34. -/
def BS_MAX : Int := 33554432

/-! ### Decimal rendering (the `sprintf(str_buf, "%d\n", iter)` payload) -/

/-- Little-endian decimal digits of `n`, with explicit fuel so that the
definition is structurally recursive and evaluates inside the kernel.
`digitsLE fuel n` is the digit list of `n` whenever `n < fuel`. -/
def digitsLE : Nat → Nat → List Nat
  | 0, _ => []
  | fuel + 1, n => if n < 10 then [n] else n % 10 :: digitsLE fuel (n / 10)

/-- The ASCII bytes of the decimal rendering of `n`, most significant digit
first: the result of `sprintf(buf, "%d", n)` for a non-negative `int`. -/
def decimal (n : Nat) : List Nat :=
  (digitsLE (n + 1) n).reverse.map (fun d => 48 + d)

/-- The bytes placed in `str_buf` by `sprintf(str_buf, "%d\n", iter)`
(timed-writer.c:120): the decimal rendering of `iter` followed by a
newline.  Its length is the `strlen(str_buf)` of timed-writer.c:122. -/
def strBytes (iter : Nat) : List Nat := decimal iter ++ [10]

/-- `strcpy((char *) write_buf, str_buf)` (timed-writer.c:121): the bytes
of `s` and a terminating NUL byte are copied over the start of `buf`; the
bytes of `buf` beyond position `s.length` are untouched. -/
def strcpyInto (buf s : List Nat) : List Nat :=
  s ++ [0] ++ buf.drop (s.length + 1)

/-! ### `atol` and the `int` truncation -/

/-- The characters accepted by `isspace` in the C locale, as skipped by
`atol`/`strtol` before the number. -/
def isSpaceC (c : Char) : Bool :=
  c == ' ' || c == '\t' || c == '\n' || c == '\x0b' || c == '\x0c' || c == '\r'

/-- Accumulate leading decimal digits, stopping at the first non-digit:
the digit-consuming phase of `atol`. -/
def digitsAcc : List Char → Int → Int
  | [], acc => acc
  | c :: cs, acc =>
    if c.isDigit then digitsAcc cs (10 * acc + ((c.toNat : Int) - 48)) else acc

/-- C `atol` (base 10): skip whitespace, read an optional sign, then read
leading digits; every string without leading digits converts to `0`. -/
def atol (s : List Char) : Int :=
  match s.dropWhile isSpaceC with
  | '-' :: rest => - digitsAcc rest 0
  | '+' :: rest => digitsAcc rest 0
  | rest => digitsAcc rest 0

/-- Two's-complement truncation of a `long` value to `int`, as performed by
`blocksize = atol(optarg)` (timed-writer.c:209) on every real platform. -/
def wrap32 (v : Int) : Int :=
  (v + 2147483648) % 4294967296 - 2147483648

/-! ### Configuration (the validated variables of `main`) -/

/-- The validated configuration with which `main` calls `line_writer`
(timed-writer.c:230-235). -/
structure RunConfig where
  filename : String
  interval : Int
  iterations : Int
  failmax : Int
  blocksize : Int
  excl_lock : Bool
deriving DecidableEq, Repr

/-- The mutable option variables of `main` (timed-writer.c:170-174) while
the `getopt` loop runs, with their declared initial values. -/
structure OptState where
  interval : Int
  iterations : Int
  failmax : Int
  blocksize : Int
  excl_lock : Bool
deriving DecidableEq, Repr

/-- The initial values of the option variables (timed-writer.c:170-174). -/
def initOpts : OptState := ⟨5, 666, 5, 0, false⟩

/-- Outcome of `main`'s argument phase: `helpExit` is `usage(); exit(EXIT_SUCCESS)`,
`configError` is an `fprintf(stderr, ...)` followed by `exit(EXIT_FAILURE)`
before any file is opened, and `run cfg` is the call to `line_writer`. -/
inductive MainResult where
  | helpExit
  | configError (msg : String)
  | run (cfg : RunConfig)
deriving DecidableEq, Repr

/-- The bounds checks of the `switch` in `main` (timed-writer.c:183-215),
one branch per numeric option character.  The conversion and conditions
mirror the source exactly; the `-b` branch truncates to `int` before the
check because `blocksize` is declared `int`. -/
def validateOpt (st : OptState) (c : Char) (arg : String) : Except String OptState :=
  if c = 's' then
    let v := atol arg.toList
    if v = 0 ∨ v > 3600 ∨ v < 1 then .error ("Invalid sleep time: " ++ arg)
    else .ok { st with interval := v }
  else if c = 'c' then
    let v := atol arg.toList
    if v ≤ 0 ∨ v > 666 then .error ("Invalid max iterations: " ++ arg)
    else .ok { st with iterations := v }
  else if c = 'f' then
    let v := atol arg.toList
    if v < 0 ∨ v > 100 then .error ("Invalid max consecutive write failures: " ++ arg)
    else .ok { st with failmax := v }
  else
    let v := wrap32 (atol arg.toList)
    if v < 0 ∨ v > 33554432 then .error ("Invalid write block size: " ++ arg)
    else .ok { st with blocksize := v }

/-- An argv token that `getopt` treats as an option cluster: it starts
with `-` and has at least one further character (`"-"` alone is a
non-option argument; `"--"` is handled separately by the caller). -/
def isOptToken (t : String) : Bool :=
  match t.toList with
  | '-' :: _ :: _ => true
  | _ => false

/-- The option characters of the optstring `"s:c:b:f:lh"` that require an
argument. -/
def isArgOpt (c : Char) : Bool :=
  c == 's' || c == 'c' || c == 'f' || c == 'b'

/-- Result of scanning one option cluster: `help` is `-h`; `badOpt` is an
unknown option character (`getopt` returns `?` and the `default` case of
the `switch` runs); `cont` finishes the cluster; `argHere`/`argNext`
report an argument-taking option whose argument is the rest of the
cluster or must come from the next argv token. -/
inductive ClusterOut where
  | help
  | badOpt
  | cont (st : OptState)
  | argHere (st : OptState) (c : Char) (arg : String)
  | argNext (st : OptState) (c : Char)

/-- Scan the characters of one option cluster in order, exactly as
`getopt` hands them to the `switch` of `main`: `h` exits with usage
immediately (timed-writer.c:179-182), `l` sets the lock flag
(timed-writer.c:216-218), an argument-taking option consumes the rest of
the cluster (or defers to the next token), and anything else is the
`default` error case (timed-writer.c:219-222). -/
def doCluster (st : OptState) : List Char → ClusterOut
  | [] => .cont st
  | c :: cs =>
    if c = 'h' then .help
    else if c = 'l' then doCluster { st with excl_lock := true } cs
    else if isArgOpt c then
      match cs with
      | [] => .argNext st c
      | _ :: _ => .argHere st c (String.mk cs)
    else .badOpt

/-- The `while ((opt = getopt(...)) != -1)` loop of `main`
(timed-writer.c:177-224) together with the final positional-argument
check (timed-writer.c:225-228).  GNU `getopt` permutes non-option
arguments behind the options; this is modelled by collecting them in
`pos` while options are processed left to right.  A missing option
argument makes `getopt` return `?`, which lands in the same `default`
error case as an unknown option. -/
def finishArgs (st : OptState) (pos : List String) : MainResult :=
  match pos with
  | [f] => .run ⟨f, st.interval, st.iterations, st.failmax, st.blocksize, st.excl_lock⟩
  | _ => .configError "Expecting one, and only one, FILENAME"

/-- See `finishArgs`; `tokLoop` walks the argv tokens. -/
def tokLoop (st : OptState) (pos : List String) : List String → MainResult
  | [] => finishArgs st pos
  | tok :: rest =>
    if tok = "--" then finishArgs st (pos ++ rest)
    else if isOptToken tok then
      match doCluster st tok.toList.tail with
      | .help => .helpExit
      | .badOpt => .configError "Command line gibberish, try -h"
      | .cont st1 => tokLoop st1 pos rest
      | .argHere st1 c arg =>
        match validateOpt st1 c arg with
        | .error msg => .configError msg
        | .ok st2 => tokLoop st2 pos rest
      | .argNext st1 c =>
        match rest with
        | [] => .configError "Command line gibberish, try -h"
        | arg :: rest2 =>
          match validateOpt st1 c arg with
          | .error msg => .configError msg
          | .ok st2 => tokLoop st2 pos rest2
    else tokLoop st (pos ++ [tok]) rest

/-- `main`'s whole argument phase applied to `argv[1..]`. -/
def parseArgs (args : List String) : MainResult :=
  tokLoop initOpts [] args

/-! ### The write loop -/

/-- Result of one `write(fd, write_buf, write_actual)` call as observed by
the program: `err` is a `-1` return (a hard error), `wrote n` is a
non-negative return value `n` (`n` equal to the requested size is a full
write, anything else is a short write). -/
inductive WriteOutcome where
  | err
  | wrote (n : Nat)
deriving DecidableEq, Repr

/-- The outcomes of the system calls that the program observes: whether
`open` succeeds (timed-writer.c:99), whether `flock` succeeds
(timed-writer.c:109), and what `write` returns at each iteration index
(timed-writer.c:127). -/
structure Env where
  openOk : Bool
  lockOk : Bool
  write : Nat → WriteOutcome

/-- The observable record of one loop iteration (timed-writer.c:119-158):
the iteration index, the byte count passed to `write`, the bytes passed
to `write`, the `write` outcome, whether the `write() failed` stderr
report ran (timed-writer.c:132), whether the short-write `Interrupted?!!`
notice ran (timed-writer.c:144-145), the consecutive-failure counter
before and after classifying the result, and the `sleep` performed after
the iteration (`none` when no sleep happened). -/
structure IterRec where
  iter : Nat
  requested : Nat
  payload : List Nat
  result : WriteOutcome
  failNotice : Bool
  shortNotice : Bool
  failuresBefore : Nat
  failuresAfter : Nat
  sleptAfter : Option Nat
deriving DecidableEq, Repr

/-- How the loop ended: `completed` is the normal `iter < iterations`
exhaustion, `fatalFail` is the `exit(EXIT_FAILURE)` of
timed-writer.c:137-140 when the consecutive-failure cap is reached. -/
inductive LoopExit where
  | completed
  | fatalFail
deriving DecidableEq, Repr

/-- How `line_writer` ended as seen by the process: `exited code` is a
direct `exit()` from within the loop, `returned code` is a normal
function return to `main`. -/
inductive ProcExit where
  | exited (code : Nat)
  | returned (code : Nat)
deriving DecidableEq, Repr

/-- The `for (int iter = 0; iter < iterations;)` loop of `line_writer`
(timed-writer.c:119-159).  `remaining` is `iterations - iter`, the number
of loop tests still to succeed, making the recursion structural; the
sleep condition `++iter < iterations` is kept verbatim.  Per iteration:
render `"%d\n"` into `str_buf`, `strcpy` it over the buffer start, pass
`blocksize` bytes (or the text length when `blocksize` is 0) to `write`,
then classify: a hard error increments the failure counter when
`failmax > 0` and calls `exit(EXIT_FAILURE)` when it reaches `failmax`;
any other outcome resets the counter to 0 and, when the byte count
differs from the request, prints the informational short-write notice. -/
def writerLoop (env : Env) (interval iterations failmax blocksize : Nat) :
    Nat → Nat → Nat → List Nat → List IterRec × LoopExit
  | 0, _, _, _ => ([], .completed)
  | remaining + 1, iter, failures, buf =>
    let sb := strBytes iter
    let buf1 := strcpyInto buf sb
    let writeActual := if blocksize ≠ 0 then blocksize else sb.length
    let payload := buf1.take writeActual
    let slept : Option Nat := if iter + 1 < iterations then some interval else none
    match env.write iter with
    | .err =>
      if failmax > 0 then
        if failures + 1 = failmax then
          ([⟨iter, writeActual, payload, .err, true, false, failures, failures + 1, none⟩],
            .fatalFail)
        else
          let r := writerLoop env interval iterations failmax blocksize
            remaining (iter + 1) (failures + 1) buf1
          (⟨iter, writeActual, payload, .err, true, false, failures, failures + 1, slept⟩ :: r.1,
            r.2)
      else
        let r := writerLoop env interval iterations failmax blocksize
          remaining (iter + 1) failures buf1
        (⟨iter, writeActual, payload, .err, true, false, failures, failures, slept⟩ :: r.1,
          r.2)
    | .wrote n =>
      let r := writerLoop env interval iterations failmax blocksize
        remaining (iter + 1) 0 buf1
      (⟨iter, writeActual, payload, .wrote n, false, n != writeActual, failures, 0, slept⟩ :: r.1,
        r.2)

/-- `write_buf_size = blocksize > BS_DEF ? blocksize : BS_DEF`
(timed-writer.c:87). -/
def writeBufSize (blocksize : Nat) : Nat :=
  if blocksize > BS_DEF then blocksize else BS_DEF

/-- `line_writer` (timed-writer.c:64-165): allocate the buffer once and
fill it with `'\r'` (timed-writer.c:96-97), return 1 if `open` fails
(timed-writer.c:99-106), return 1 if the requested `flock` fails
(timed-writer.c:108-117), otherwise run the loop on the single shared
buffer and return 0 on completion; a fatal failure inside the loop exits
the process directly with `EXIT_FAILURE`. -/
def line_writer (env : Env) (filename : String) (interval : Nat) (excl_lock : Bool)
    (iterations failmax blocksize : Nat) : List IterRec × ProcExit :=
  let _ := filename
  if !env.openOk then ([], .returned 1)
  else if excl_lock && !env.lockOk then ([], .returned 1)
  else
    let r := writerLoop env interval iterations failmax blocksize
      iterations 0 0 (List.replicate (writeBufSize blocksize) 13)
    match r.2 with
    | .completed => (r.1, .returned 0)
    | .fatalFail => (r.1, .exited 1)

/-- The exit status of the whole process for a run that reaches
`line_writer`: a direct `exit()` inside the loop fixes the status;
otherwise `main` ignores `line_writer`'s return value and executes
`return 0` (timed-writer.c:230-237). -/
def processExit (env : Env) (filename : String) (interval : Nat) (excl_lock : Bool)
    (iterations failmax blocksize : Nat) : Nat :=
  match (line_writer env filename interval excl_lock iterations failmax blocksize).2 with
  | .exited code => code
  | .returned _ => 0

/-- The exit status of the whole process: `exit(EXIT_SUCCESS)` for `-h`,
`exit(EXIT_FAILURE)` for a validation error, and otherwise the
`line_writer` phase (timed-writer.c:168-238). -/
def runProcess (env : Env) (args : List String) : Nat :=
  match parseArgs args with
  | .helpExit => 0
  | .configError _ => 1
  | .run cfg =>
    processExit env cfg.filename cfg.interval.toNat cfg.excl_lock
      cfg.iterations.toNat cfg.failmax.toNat cfg.blocksize.toNat

/-! ### Concrete environments used in witnesses and counterexamples -/

/-- Every `write` succeeds in full (the request is always met) for runs
that write the iteration text (`blocksize = 0`). -/
def envText : Env := ⟨true, true, fun i => .wrote (strBytes i).length⟩

/-- Every `write` fails with a hard error. -/
def envErr : Env := ⟨true, true, fun _ => .err⟩

/-- `open` fails. -/
def envOpenFail : Env := ⟨false, true, fun _ => .err⟩

/-- `open` succeeds but `flock` fails. -/
def envLockFail : Env := ⟨true, false, fun _ => .err⟩

/-- Every `write` reports exactly 4 bytes written. -/
def envBlock4 : Env := ⟨true, true, fun _ => .wrote 4⟩

/-- Every `write` reports exactly 1 byte written (a short write whenever
more than 1 byte is requested). -/
def envShort : Env := ⟨true, true, fun _ => .wrote 1⟩

/-- The byte that, by the analysis of the loop, sits at offset `p` of the
payload of iteration `i` when `blocksize > 0`: the iteration text, then
the NUL terminator copied by `strcpy`, then the `'\r'` filler. -/
def payloadSpec (i p : Nat) : Nat :=
  if p < (strBytes i).length then (strBytes i).getD p 0
  else if p = (strBytes i).length then 0
  else 13

end TimedWriter

namespace TimedWriter

/-! ### Arithmetic facts about the decimal rendering -/

theorem digitsLE_congr : ∀ f g n : Nat, n < f → n < g → digitsLE f n = digitsLE g n := by
  intro f
  induction f with
  | zero => intro g n hf; omega
  | succ f ih =>
    intro g n hf hg
    cases g with
    | zero => omega
    | succ g =>
      simp only [digitsLE]
      by_cases h10 : n < 10
      · simp [h10]
      · have hn : 0 < n := by omega
        have hd : n / 10 < n := Nat.div_lt_self hn (by omega)
        simp only [h10, if_false]
        rw [ih g (n / 10) (by omega) (by omega)]

/-- The number of decimal digits of `n`. -/
def numLen (n : Nat) : Nat := (digitsLE (n + 1) n).length

theorem numLen_of_lt_ten {n : Nat} (h : n < 10) : numLen n = 1 := by
  simp [numLen, digitsLE, h]

theorem numLen_of_ten_le {n : Nat} (h : 10 ≤ n) : numLen n = numLen (n / 10) + 1 := by
  have hd : n / 10 < n := Nat.div_lt_self (by omega) (by omega)
  have : digitsLE (n + 1) n = n % 10 :: digitsLE n (n / 10) := by
    simp [digitsLE, Nat.not_lt.mpr h]
  rw [numLen, this]
  have : digitsLE n (n / 10) = digitsLE (n / 10 + 1) (n / 10) :=
    digitsLE_congr n (n / 10 + 1) (n / 10) hd (by omega)
  simp [this, numLen]

theorem numLen_mono : ∀ {m n : Nat}, m ≤ n → numLen m ≤ numLen n := by
  intro m n
  induction n using Nat.strong_induction_on generalizing m with
  | _ n ih =>
    intro hmn
    by_cases hn : n < 10
    · rw [numLen_of_lt_ten (by omega), numLen_of_lt_ten hn]
    · by_cases hm : m < 10
      · rw [numLen_of_lt_ten hm, numLen_of_ten_le (by omega)]
        omega
      · rw [numLen_of_ten_le (show 10 ≤ m by omega),
          numLen_of_ten_le (show 10 ≤ n by omega)]
        have hd : n / 10 < n := Nat.div_lt_self (by omega) (by omega)
        have := ih (n / 10) hd (Nat.div_le_div_right hmn)
        omega

theorem numLen_le_succ : ∀ n : Nat, numLen n ≤ n + 1 := by
  intro n
  induction n using Nat.strong_induction_on with
  | _ n ih =>
    by_cases hn : n < 10
    · rw [numLen_of_lt_ten hn]; omega
    · rw [numLen_of_ten_le (by omega)]
      have hd : n / 10 < n := Nat.div_lt_self (by omega) (by omega)
      have := ih (n / 10) hd
      omega

theorem decimal_length (n : Nat) : (decimal n).length = numLen n := by
  simp [decimal, numLen]

theorem strBytes_length (n : Nat) : (strBytes n).length = numLen n + 1 := by
  simp [strBytes, decimal_length]

theorem strBytes_length_mono {m n : Nat} (h : m ≤ n) :
    (strBytes m).length ≤ (strBytes n).length := by
  rw [strBytes_length, strBytes_length]
  have := numLen_mono h
  omega

/-! ### Indexing helpers for the write buffer -/

theorem getD_append_left {l₁ l₂ : List Nat} {p : Nat} (h : p < l₁.length) :
    (l₁ ++ l₂).getD p 0 = l₁.getD p 0 := by
  simp [List.getD_eq_getElem?_getD, List.getElem?_append_left h]

theorem getD_append_right {l₁ l₂ : List Nat} {p : Nat} (h : l₁.length ≤ p) :
    (l₁ ++ l₂).getD p 0 = l₂.getD (p - l₁.length) 0 := by
  simp [List.getD_eq_getElem?_getD, List.getElem?_append_right h]

theorem getD_take_of_lt {l : List Nat} {m p : Nat} (h : p < m) :
    (l.take m).getD p 0 = l.getD p 0 := by
  simp [List.getD_eq_getElem?_getD, List.getElem?_take_of_lt h]

theorem getD_drop (l : List Nat) (k p : Nat) :
    (l.drop k).getD p 0 = l.getD (k + p) 0 := by
  simp [List.getD_eq_getElem?_getD, List.getElem?_drop]

theorem getD_replicate {k p a : Nat} (h : p < k) :
    (List.replicate k a).getD p 0 = a := by
  simp [List.getD_eq_getElem?_getD, List.getElem?_replicate_of_lt h]

theorem strcpyInto_length {buf s : List Nat} (h : s.length + 1 ≤ buf.length) :
    (strcpyInto buf s).length = buf.length := by
  simp [strcpyInto]
  omega

theorem strcpyInto_getD_text {buf s : List Nat} {p : Nat} (h : p < s.length) :
    (strcpyInto buf s).getD p 0 = s.getD p 0 := by
  rw [strcpyInto, getD_append_left (by simp; omega), getD_append_left h]

theorem strcpyInto_getD_nul (buf s : List Nat) :
    (strcpyInto buf s).getD s.length 0 = 0 := by
  rw [strcpyInto, getD_append_left (by simp), getD_append_right (by omega)]
  simp

theorem strcpyInto_getD_rest {buf s : List Nat} {p : Nat} (h : s.length + 1 ≤ p) :
    (strcpyInto buf s).getD p 0 = buf.getD p 0 := by
  rw [strcpyInto, getD_append_right (by simp; omega)]
  have : (s ++ [0]).length = s.length + 1 := by simp
  rw [this, getD_drop]
  congr 1
  omega

theorem strcpyInto_take (buf s : List Nat) :
    (strcpyInto buf s).take s.length = s := by
  rw [strcpyInto, List.append_assoc, List.take_left' rfl]

end TimedWriter

namespace TimedWriter

/-! ### Invariants of the write loop -/

/-- With `failmax = 0` the loop never terminates early: it always runs all
remaining iterations and completes, whatever the `write` outcomes are. -/
theorem loop_fail0 (env : Env) (interval iterations blocksize : Nat) :
    ∀ remaining iter failures buf,
      (writerLoop env interval iterations 0 blocksize remaining iter failures buf).2 =
        .completed ∧
      (writerLoop env interval iterations 0 blocksize remaining iter failures buf).1.length =
        remaining := by
  intro remaining
  induction remaining with
  | zero => intro iter failures buf; simp [writerLoop]
  | succ n ih =>
    intro iter failures buf
    simp only [writerLoop]
    cases hw : env.write iter with
    | err =>
      simp only [hw]
      have := ih (iter + 1) failures (strcpyInto buf (strBytes iter))
      simp [this.1, this.2]
    | wrote m =>
      simp only [hw]
      have := ih (iter + 1) 0 (strcpyInto buf (strBytes iter))
      simp [this.1, this.2]

/-- Every record produced by the loop carries an iteration index in the
window `[iter, iter + remaining)`. -/
theorem loop_iter_bounds (env : Env) (interval iterations failmax blocksize : Nat) :
    ∀ remaining iter failures buf,
      ∀ rec ∈ (writerLoop env interval iterations failmax blocksize
          remaining iter failures buf).1,
        iter ≤ rec.iter ∧ rec.iter < iter + remaining := by
  intro remaining
  induction remaining with
  | zero => intro iter failures buf; simp [writerLoop]
  | succ n ih =>
    intro iter failures buf rec hrec
    simp only [writerLoop] at hrec
    cases hw : env.write iter with
    | err =>
      simp only [hw] at hrec
      by_cases hfm : failmax > 0
      · rw [if_pos hfm] at hrec
        by_cases hc : failures + 1 = failmax
        · rw [if_pos hc] at hrec
          simp at hrec
          subst hrec
          exact ⟨Nat.le_refl iter, Nat.lt_succ_of_le (Nat.le_add_right iter n)⟩
        · rw [if_neg hc] at hrec
          simp only [List.mem_cons] at hrec
          rcases hrec with rfl | hrec
          · exact ⟨Nat.le_refl iter, Nat.lt_succ_of_le (Nat.le_add_right iter n)⟩
          · have := ih (iter + 1) (failures + 1) (strcpyInto buf (strBytes iter)) rec hrec
            omega
      · rw [if_neg hfm] at hrec
        simp only [List.mem_cons] at hrec
        rcases hrec with rfl | hrec
        · exact ⟨Nat.le_refl iter, Nat.lt_succ_of_le (Nat.le_add_right iter n)⟩
        · have := ih (iter + 1) failures (strcpyInto buf (strBytes iter)) rec hrec
          omega
    | wrote m =>
      simp only [hw] at hrec
      simp only [List.mem_cons] at hrec
      rcases hrec with rfl | hrec
      · exact ⟨Nat.le_refl iter, Nat.lt_succ_of_le (Nat.le_add_right iter n)⟩
      · have := ih (iter + 1) 0 (strcpyInto buf (strBytes iter)) rec hrec
        omega

/-- Invariant of the consecutive-failure counter (timed-writer.c:131-143):
starting below a positive `failmax`, the counter observed at the start of
every iteration stays strictly below `failmax`, and the counter after
classification never exceeds `failmax`. -/
theorem loop_inv (env : Env) (interval iterations failmax blocksize : Nat)
    (hfm : 0 < failmax) :
    ∀ remaining iter failures buf, failures < failmax →
      ∀ rec ∈ (writerLoop env interval iterations failmax blocksize
          remaining iter failures buf).1,
        rec.failuresBefore < failmax ∧ rec.failuresAfter ≤ failmax := by
  intro remaining
  induction remaining with
  | zero => intro iter failures buf hf; simp [writerLoop]
  | succ n ih =>
    intro iter failures buf hf rec hrec
    simp only [writerLoop] at hrec
    cases hw : env.write iter with
    | err =>
      simp only [hw] at hrec
      rw [if_pos hfm] at hrec
      by_cases hc : failures + 1 = failmax
      · rw [if_pos hc] at hrec
        simp at hrec
        subst hrec
        exact ⟨hf, Nat.le_of_eq hc⟩
      · rw [if_neg hc] at hrec
        simp only [List.mem_cons] at hrec
        rcases hrec with rfl | hrec
        · exact ⟨hf, hf⟩
        · exact ih (iter + 1) (failures + 1) (strcpyInto buf (strBytes iter))
            (by omega) rec hrec
    | wrote m =>
      simp only [hw] at hrec
      simp only [List.mem_cons] at hrec
      rcases hrec with rfl | hrec
      · exact ⟨hf, Nat.zero_le failmax⟩
      · exact ih (iter + 1) 0 (strcpyInto buf (strBytes iter)) hfm rec hrec

/-- When the counter of a record reaches a positive `failmax`, that record
is the last one (the loop attempted no further iteration) and the loop
ended with the fatal `exit(EXIT_FAILURE)` (timed-writer.c:137-140). -/
theorem loop_cap (env : Env) (interval iterations failmax blocksize : Nat)
    (hfm : 0 < failmax) :
    ∀ remaining iter failures buf, failures < failmax →
      ∀ rec ∈ (writerLoop env interval iterations failmax blocksize
          remaining iter failures buf).1,
        rec.failuresAfter = failmax →
          (writerLoop env interval iterations failmax blocksize
            remaining iter failures buf).1.getLast? = some rec ∧
          (writerLoop env interval iterations failmax blocksize
            remaining iter failures buf).2 = .fatalFail := by
  intro remaining
  induction remaining with
  | zero => intro iter failures buf hf; simp [writerLoop]
  | succ n ih =>
    intro iter failures buf hf rec hrec hfa
    simp only [writerLoop] at hrec ⊢
    cases hw : env.write iter with
    | err =>
      simp only [hw] at hrec ⊢
      rw [if_pos hfm] at hrec ⊢
      by_cases hc : failures + 1 = failmax
      · rw [if_pos hc] at hrec ⊢
        simp at hrec
        subst hrec
        simp
      · rw [if_neg hc] at hrec ⊢
        simp only [List.mem_cons] at hrec
        rcases hrec with rfl | hrec
        · have h1 : failures + 1 = failmax := hfa
          exact absurd h1 hc
        · have h2 := ih (iter + 1) (failures + 1) (strcpyInto buf (strBytes iter))
            (by omega) rec hrec hfa
          refine ⟨?_, by simpa using h2.2⟩
          rcases h3 : (writerLoop env interval iterations failmax blocksize
              n (iter + 1) (failures + 1) (strcpyInto buf (strBytes iter))).1 with _ | ⟨a, t⟩
          · rw [h3] at hrec
            simp at hrec
          · have h4 := h2.1
            rw [h3] at h4
            simp only [h3, List.getLast?_cons_cons]
            exact h4
    | wrote m =>
      simp only [hw] at hrec ⊢
      simp only [List.mem_cons] at hrec
      rcases hrec with rfl | hrec
      · have h0 : (0 : Nat) = failmax := hfa
        omega
      · have h2 := ih (iter + 1) 0 (strcpyInto buf (strBytes iter)) hfm rec hrec hfa
        refine ⟨?_, by simpa using h2.2⟩
        rcases h3 : (writerLoop env interval iterations failmax blocksize
            n (iter + 1) 0 (strcpyInto buf (strBytes iter))).1 with _ | ⟨a, t⟩
        · rw [h3] at hrec
          simp at hrec
        · have h4 := h2.1
          rw [h3] at h4
          simp only [h3, List.getLast?_cons_cons]
          exact h4

/-- Classification of a `write` that did not return `-1`
(timed-writer.c:142-145): the failure counter is reset to 0, no failure
report runs, and the informational short-write notice runs exactly when
the returned byte count differs from the requested one. -/
theorem loop_wrote (env : Env) (interval iterations failmax blocksize : Nat) :
    ∀ remaining iter failures buf,
      ∀ rec ∈ (writerLoop env interval iterations failmax blocksize
          remaining iter failures buf).1,
        ∀ nn : Nat, rec.result = .wrote nn →
          rec.failuresAfter = 0 ∧ rec.failNotice = false ∧
            rec.shortNotice = (nn != rec.requested) := by
  intro remaining
  induction remaining with
  | zero => intro iter failures buf; simp [writerLoop]
  | succ n ih =>
    intro iter failures buf rec hrec nn hres
    simp only [writerLoop] at hrec
    cases hw : env.write iter with
    | err =>
      simp only [hw] at hrec
      by_cases hfm : failmax > 0
      · rw [if_pos hfm] at hrec
        by_cases hc : failures + 1 = failmax
        · rw [if_pos hc] at hrec
          simp at hrec
          subst hrec
          exact absurd hres (by simp)
        · rw [if_neg hc] at hrec
          simp only [List.mem_cons] at hrec
          rcases hrec with rfl | hrec
          · exact absurd hres (by simp)
          · exact ih (iter + 1) (failures + 1) (strcpyInto buf (strBytes iter))
              rec hrec nn hres
      · rw [if_neg hfm] at hrec
        simp only [List.mem_cons] at hrec
        rcases hrec with rfl | hrec
        · exact absurd hres (by simp)
        · exact ih (iter + 1) failures (strcpyInto buf (strBytes iter)) rec hrec nn hres
    | wrote m =>
      simp only [hw] at hrec
      simp only [List.mem_cons] at hrec
      rcases hrec with rfl | hrec
      · have h1 : WriteOutcome.wrote m = WriteOutcome.wrote nn := hres
        injection h1 with h2
        subst h2
        exact ⟨rfl, rfl, rfl⟩
      · exact ih (iter + 1) 0 (strcpyInto buf (strBytes iter)) rec hrec nn hres

/-- The byte count handed to `write` (timed-writer.c:123): the text length
for `blocksize == 0`, exactly `blocksize` otherwise; in the former case
the bytes handed over are exactly the rendered text. -/
theorem loop_requested (env : Env) (interval iterations failmax blocksize : Nat) :
    ∀ remaining iter failures buf,
      ∀ rec ∈ (writerLoop env interval iterations failmax blocksize
          remaining iter failures buf).1,
        (blocksize = 0 →
          rec.requested = (strBytes rec.iter).length ∧ rec.payload = strBytes rec.iter) ∧
        (0 < blocksize → rec.requested = blocksize) := by
  intro remaining
  induction remaining with
  | zero => intro iter failures buf; simp [writerLoop]
  | succ n ih =>
    intro iter failures buf rec hrec
    have head : ∀ res fn sn fb fa sl,
        rec = (⟨iter, if blocksize ≠ 0 then blocksize else (strBytes iter).length,
            (strcpyInto buf (strBytes iter)).take
              (if blocksize ≠ 0 then blocksize else (strBytes iter).length),
            res, fn, sn, fb, fa, sl⟩ : IterRec) →
        (blocksize = 0 →
          rec.requested = (strBytes rec.iter).length ∧ rec.payload = strBytes rec.iter) ∧
        (0 < blocksize → rec.requested = blocksize) := by
      intro res fn sn fb fa sl hrec2
      subst hrec2
      constructor
      · intro hb0
        subst hb0
        simp [strcpyInto_take]
      · intro hbpos
        show (if blocksize ≠ 0 then blocksize else (strBytes iter).length) = blocksize
        rw [if_pos (by omega)]
    simp only [writerLoop] at hrec
    cases hw : env.write iter with
    | err =>
      simp only [hw] at hrec
      by_cases hfm : failmax > 0
      · rw [if_pos hfm] at hrec
        by_cases hc : failures + 1 = failmax
        · rw [if_pos hc] at hrec
          simp only [List.mem_singleton] at hrec
          exact head _ _ _ _ _ _ hrec
        · rw [if_neg hc] at hrec
          simp only [List.mem_cons] at hrec
          rcases hrec with hrec | hrec
          · exact head _ _ _ _ _ _ hrec
          · exact ih (iter + 1) (failures + 1) (strcpyInto buf (strBytes iter)) rec hrec
      · rw [if_neg hfm] at hrec
        simp only [List.mem_cons] at hrec
        rcases hrec with hrec | hrec
        · exact head _ _ _ _ _ _ hrec
        · exact ih (iter + 1) failures (strcpyInto buf (strBytes iter)) rec hrec
    | wrote m =>
      simp only [hw] at hrec
      simp only [List.mem_cons] at hrec
      rcases hrec with hrec | hrec
      · exact head _ _ _ _ _ _ hrec
      · exact ih (iter + 1) 0 (strcpyInto buf (strBytes iter)) rec hrec

/-- Shape of a completed run of the loop (timed-writer.c:119-159) started
in sync (`iterations = iter + remaining`): one record per iteration index
in order, and the `sleep(interval)` of timed-writer.c:157-158 after
exactly the iterations that are not the last one. -/
theorem loop_completed (env : Env) (interval iterations failmax blocksize : Nat) :
    ∀ remaining iter failures buf, iterations = iter + remaining →
      (writerLoop env interval iterations failmax blocksize
        remaining iter failures buf).2 = .completed →
      (writerLoop env interval iterations failmax blocksize
        remaining iter failures buf).1.map IterRec.iter = List.range' iter remaining ∧
      (writerLoop env interval iterations failmax blocksize
        remaining iter failures buf).1.map IterRec.sleptAfter =
        (List.range' iter remaining).map
          (fun j => if j + 1 < iterations then some interval else none) := by
  intro remaining
  induction remaining with
  | zero => intro iter failures buf hsync hdone; simp [writerLoop]
  | succ n ih =>
    intro iter failures buf hsync hdone
    simp only [writerLoop] at hdone ⊢
    cases hw : env.write iter with
    | err =>
      simp only [hw] at hdone ⊢
      by_cases hfm : failmax > 0
      · rw [if_pos hfm] at hdone ⊢
        by_cases hc : failures + 1 = failmax
        · rw [if_pos hc] at hdone
          simp at hdone
        · rw [if_neg hc] at hdone ⊢
          have h2 := ih (iter + 1) (failures + 1) (strcpyInto buf (strBytes iter))
            (by omega) (by simpa using hdone)
          rw [List.range'_succ]
          simp only [List.map_cons]
          exact ⟨by rw [h2.1], by rw [h2.2]⟩
      · rw [if_neg hfm] at hdone ⊢
        have h2 := ih (iter + 1) failures (strcpyInto buf (strBytes iter))
          (by omega) (by simpa using hdone)
        rw [List.range'_succ]
        simp only [List.map_cons]
        exact ⟨by rw [h2.1], by rw [h2.2]⟩
    | wrote m =>
      simp only [hw] at hdone ⊢
      have h2 := ih (iter + 1) 0 (strcpyInto buf (strBytes iter))
        (by omega) (by simpa using hdone)
      rw [List.range'_succ]
      simp only [List.map_cons]
      exact ⟨by rw [h2.1], by rw [h2.2]⟩

/-- Characterization of every payload handed to `write` when
`blocksize > 0`: the buffer is `blocksize` bytes long and holds the
iteration text, then the NUL terminator copied by `strcpy`
(timed-writer.c:121), then untouched `'\r'` filler — provided the buffer
starts with `'\r'` from position `k` on, `k` stays below the text end,
and every text of the window fits in the buffer. -/
theorem loop_payload (env : Env) (interval iterations failmax blocksize : Nat)
    (hbs : 0 < blocksize) (L : Nat) (hbsL : blocksize ≤ L) :
    ∀ remaining iter failures buf k,
      buf.length = L →
      (∀ i, i < iter + remaining → (strBytes i).length + 1 ≤ L) →
      (∀ p, k ≤ p → p < L → buf.getD p 0 = 13) →
      k ≤ (strBytes iter).length + 1 →
      ∀ rec ∈ (writerLoop env interval iterations failmax blocksize
          remaining iter failures buf).1,
        rec.payload.length = blocksize ∧
        ∀ p, p < blocksize → rec.payload.getD p 0 = payloadSpec rec.iter p := by
  intro remaining
  induction remaining with
  | zero => intro iter failures buf k hL hfit htail hk; simp [writerLoop]
  | succ n ih =>
    intro iter failures buf k hL hfit htail hk rec hrec
    have hfit0 : (strBytes iter).length + 1 ≤ L := hfit iter (by omega)
    have hbuf1L : (strcpyInto buf (strBytes iter)).length = L := by
      rw [strcpyInto_length (by omega)]
      exact hL
    have htail1 : ∀ p, (strBytes iter).length + 1 ≤ p → p < L →
        (strcpyInto buf (strBytes iter)).getD p 0 = 13 := by
      intro p hp hpL
      rw [strcpyInto_getD_rest hp]
      exact htail p (by omega) hpL
    have head : ∀ res fn sn fb fa sl,
        rec = (⟨iter, if blocksize ≠ 0 then blocksize else (strBytes iter).length,
            (strcpyInto buf (strBytes iter)).take
              (if blocksize ≠ 0 then blocksize else (strBytes iter).length),
            res, fn, sn, fb, fa, sl⟩ : IterRec) →
        rec.payload.length = blocksize ∧
        ∀ p, p < blocksize → rec.payload.getD p 0 = payloadSpec rec.iter p := by
      intro res fn sn fb fa sl hrec2
      subst hrec2
      have hwa : (if blocksize ≠ 0 then blocksize else (strBytes iter).length) = blocksize :=
        if_pos (by omega)
      constructor
      · show ((strcpyInto buf (strBytes iter)).take
            (if blocksize ≠ 0 then blocksize else (strBytes iter).length)).length = blocksize
        rw [hwa, List.length_take, hbuf1L]
        omega
      · intro p hp
        show ((strcpyInto buf (strBytes iter)).take
            (if blocksize ≠ 0 then blocksize else (strBytes iter).length)).getD p 0 =
          payloadSpec iter p
        rw [hwa, getD_take_of_lt hp, payloadSpec]
        by_cases h1 : p < (strBytes iter).length
        · rw [if_pos h1, strcpyInto_getD_text h1]
        · rw [if_neg h1]
          by_cases h2 : p = (strBytes iter).length
          · rw [if_pos h2, h2, strcpyInto_getD_nul]
          · rw [if_neg h2]
            exact htail1 p (by omega) (by omega)
    simp only [writerLoop] at hrec
    have htailrec : ∀ failures2,
        ∀ rec2 ∈ (writerLoop env interval iterations failmax blocksize
            n (iter + 1) failures2 (strcpyInto buf (strBytes iter))).1,
          rec2.payload.length = blocksize ∧
          ∀ p, p < blocksize → rec2.payload.getD p 0 = payloadSpec rec2.iter p := by
      intro failures2
      exact ih (iter + 1) failures2 (strcpyInto buf (strBytes iter))
        ((strBytes iter).length + 1) hbuf1L
        (fun i hi => hfit i (by omega)) htail1
        (by
          have := strBytes_length_mono (show iter ≤ iter + 1 by omega)
          omega)
    cases hw : env.write iter with
    | err =>
      simp only [hw] at hrec
      by_cases hfm : failmax > 0
      · rw [if_pos hfm] at hrec
        by_cases hc : failures + 1 = failmax
        · rw [if_pos hc] at hrec
          simp only [List.mem_singleton] at hrec
          exact head _ _ _ _ _ _ hrec
        · rw [if_neg hc] at hrec
          simp only [List.mem_cons] at hrec
          rcases hrec with hrec | hrec
          · exact head _ _ _ _ _ _ hrec
          · exact htailrec (failures + 1) rec hrec
      · rw [if_neg hfm] at hrec
        simp only [List.mem_cons] at hrec
        rcases hrec with hrec | hrec
        · exact head _ _ _ _ _ _ hrec
        · exact htailrec failures rec hrec
    | wrote m =>
      simp only [hw] at hrec
      simp only [List.mem_cons] at hrec
      rcases hrec with hrec | hrec
      · exact head _ _ _ _ _ _ hrec
      · exact htailrec 0 rec hrec

/-- When `open` succeeds and `flock` would succeed, `line_writer` is the
loop applied to the freshly allocated `'\r'`-filled buffer, returning 0
on completion and exiting the process on a fatal failure
(timed-writer.c:99-164). -/
theorem line_writer_loop (env : Env) (fn : String) (interval : Nat) (lock : Bool)
    (iterations failmax blocksize : Nat)
    (hopen : env.openOk = true) (hlock : env.lockOk = true) :
    line_writer env fn interval lock iterations failmax blocksize =
      ((writerLoop env interval iterations failmax blocksize iterations 0 0
          (List.replicate (writeBufSize blocksize) 13)).1,
        match (writerLoop env interval iterations failmax blocksize iterations 0 0
            (List.replicate (writeBufSize blocksize) 13)).2 with
        | .completed => ProcExit.returned 0
        | .fatalFail => ProcExit.exited 1) := by
  rw [line_writer, hopen, hlock]
  simp only [Bool.not_true, Bool.and_false, Bool.false_eq_true, if_false]
  cases h2 : (writerLoop env interval iterations failmax blocksize iterations 0 0
      (List.replicate (writeBufSize blocksize) 13)).2 <;> simp [h2]

/-! ### Facts about the argument phase -/

/-- A command line of non-option tokens is passed through unchanged to the
final positional-argument check. -/
theorem tokLoop_posOnly (st : OptState) :
    ∀ toks pos, (∀ t ∈ toks, isOptToken t = false ∧ t ≠ "--") →
      tokLoop st pos toks = finishArgs st (pos ++ toks) := by
  intro toks
  induction toks with
  | nil => intro pos h; simp [tokLoop]
  | cons tok rest ih =>
    intro pos h
    have h1 := h tok (List.mem_cons_self tok rest)
    simp only [tokLoop]
    rw [if_neg h1.2, if_neg (by simp [h1.1])]
    rw [ih (pos ++ [tok]) (fun t ht => h t (List.mem_cons_of_mem tok ht))]
    have h3 : (pos ++ [tok]) ++ rest = pos ++ tok :: rest := by simp
    rw [h3]

/-- A lone non-option token is accepted as the single FILENAME. -/
theorem tokLoop_single_pos (st : OptState) (f : String)
    (hf1 : isOptToken f = false) (hf2 : f ≠ "--") :
    tokLoop st [] [f] =
      .run ⟨f, st.interval, st.iterations, st.failmax, st.blocksize, st.excl_lock⟩ := by
  rw [tokLoop_posOnly st [f] [] (by simp [hf1, hf2])]
  simp [finishArgs]

/-- `main` exits with `EXIT_FAILURE` on every validation error, before
any file is opened (timed-writer.c:188-228). -/
theorem configError_exit (env : Env) (args : List String) (m : String)
    (h : parseArgs args = .configError m) : runProcess env args = 1 := by
  simp [runProcess, h]

/-- Processing of `-s` with a separate argument token. -/
theorem parse_sleep_flag (arg f : String)
    (hf1 : isOptToken f = false) (hf2 : f ≠ "--") :
    parseArgs ["-s", arg, f] =
      if atol arg.toList = 0 ∨ atol arg.toList > 3600 ∨ atol arg.toList < 1 then
        .configError ("Invalid sleep time: " ++ arg)
      else .run ⟨f, atol arg.toList, 666, 5, 0, false⟩ := by
  have step : parseArgs ["-s", arg, f] =
      match (if atol arg.toList = 0 ∨ atol arg.toList > 3600 ∨ atol arg.toList < 1 then
          Except.error ("Invalid sleep time: " ++ arg)
        else Except.ok (⟨atol arg.toList, 666, 5, 0, false⟩ : OptState)) with
      | Except.error msg => MainResult.configError msg
      | Except.ok st2 => tokLoop st2 [] [f] := rfl
  rw [step]
  by_cases hcond : atol arg.toList = 0 ∨ atol arg.toList > 3600 ∨ atol arg.toList < 1
  · rw [if_pos hcond, if_pos hcond]
  · rw [if_neg hcond, if_neg hcond]
    exact tokLoop_single_pos _ f hf1 hf2

/-- Processing of `-c` with a separate argument token. -/
theorem parse_count_flag (arg f : String)
    (hf1 : isOptToken f = false) (hf2 : f ≠ "--") :
    parseArgs ["-c", arg, f] =
      if atol arg.toList ≤ 0 ∨ atol arg.toList > 666 then
        .configError ("Invalid max iterations: " ++ arg)
      else .run ⟨f, 5, atol arg.toList, 5, 0, false⟩ := by
  have step : parseArgs ["-c", arg, f] =
      match (if atol arg.toList ≤ 0 ∨ atol arg.toList > 666 then
          Except.error ("Invalid max iterations: " ++ arg)
        else Except.ok (⟨5, atol arg.toList, 5, 0, false⟩ : OptState)) with
      | Except.error msg => MainResult.configError msg
      | Except.ok st2 => tokLoop st2 [] [f] := rfl
  rw [step]
  by_cases hcond : atol arg.toList ≤ 0 ∨ atol arg.toList > 666
  · rw [if_pos hcond, if_pos hcond]
  · rw [if_neg hcond, if_neg hcond]
    exact tokLoop_single_pos _ f hf1 hf2

/-- Processing of `-f` with a separate argument token. -/
theorem parse_failmax_flag (arg f : String)
    (hf1 : isOptToken f = false) (hf2 : f ≠ "--") :
    parseArgs ["-f", arg, f] =
      if atol arg.toList < 0 ∨ atol arg.toList > 100 then
        .configError ("Invalid max consecutive write failures: " ++ arg)
      else .run ⟨f, 5, 666, atol arg.toList, 0, false⟩ := by
  have step : parseArgs ["-f", arg, f] =
      match (if atol arg.toList < 0 ∨ atol arg.toList > 100 then
          Except.error ("Invalid max consecutive write failures: " ++ arg)
        else Except.ok (⟨5, 666, atol arg.toList, 0, false⟩ : OptState)) with
      | Except.error msg => MainResult.configError msg
      | Except.ok st2 => tokLoop st2 [] [f] := rfl
  rw [step]
  by_cases hcond : atol arg.toList < 0 ∨ atol arg.toList > 100
  · rw [if_pos hcond, if_pos hcond]
  · rw [if_neg hcond, if_neg hcond]
    exact tokLoop_single_pos _ f hf1 hf2

/-- Processing of `-b` with a separate argument token; the value is
truncated to `int` width before the bounds check. -/
theorem parse_blocksize_flag (arg f : String)
    (hf1 : isOptToken f = false) (hf2 : f ≠ "--") :
    parseArgs ["-b", arg, f] =
      if wrap32 (atol arg.toList) < 0 ∨ wrap32 (atol arg.toList) > 33554432 then
        .configError ("Invalid write block size: " ++ arg)
      else .run ⟨f, 5, 666, 5, wrap32 (atol arg.toList), false⟩ := by
  have step : parseArgs ["-b", arg, f] =
      match (if wrap32 (atol arg.toList) < 0 ∨ wrap32 (atol arg.toList) > 33554432 then
          Except.error ("Invalid write block size: " ++ arg)
        else Except.ok (⟨5, 666, 5, wrap32 (atol arg.toList), false⟩ : OptState)) with
      | Except.error msg => MainResult.configError msg
      | Except.ok st2 => tokLoop st2 [] [f] := rfl
  rw [step]
  by_cases hcond : wrap32 (atol arg.toList) < 0 ∨ wrap32 (atol arg.toList) > 33554432
  · rw [if_pos hcond, if_pos hcond]
  · rw [if_neg hcond, if_neg hcond]
    exact tokLoop_single_pos _ f hf1 hf2

/-- Every record of a `line_writer` run is a record of the loop started on
the fresh buffer. -/
theorem line_writer_mem (env : Env) (fn : String) (interval : Nat) (lock : Bool)
    (iterations failmax blocksize : Nat) :
    ∀ rec ∈ (line_writer env fn interval lock iterations failmax blocksize).1,
      rec ∈ (writerLoop env interval iterations failmax blocksize iterations 0 0
        (List.replicate (writeBufSize blocksize) 13)).1 := by
  intro rec hrec
  simp only [line_writer] at hrec
  split at hrec
  · simp at hrec
  · split at hrec
    · simp at hrec
    · split at hrec <;> exact hrec

/-! ### The claims -/

/-- Claim C2: for `failmax > 0`, the iteration whose write failure brings
the consecutive-failure counter up to `failmax` is the last one: the loop
attempts no further iteration, `exit(EXIT_FAILURE)` runs, and the process
exit status is 1.  For `failmax = 0` the loop never terminates because of
write failures: it completes all `iterations` iterations whatever the
write outcomes are. -/
theorem consecutive_failure_cap (env : Env) (fn : String) (interval : Nat) (lock : Bool)
    (iterations failmax blocksize : Nat)
    (hopen : env.openOk = true) (hlock : env.lockOk = true) :
    (0 < failmax →
      ∀ rec ∈ (line_writer env fn interval lock iterations failmax blocksize).1,
        rec.failuresAfter = failmax →
          (line_writer env fn interval lock iterations failmax blocksize).1.getLast? =
            some rec ∧
          (line_writer env fn interval lock iterations failmax blocksize).2 =
            .exited 1 ∧
          processExit env fn interval lock iterations failmax blocksize = 1) ∧
    (failmax = 0 →
      (line_writer env fn interval lock iterations failmax blocksize).2 = .returned 0 ∧
      (line_writer env fn interval lock iterations failmax blocksize).1.length =
        iterations) := by
  rw [processExit]
  rw [line_writer_loop env fn interval lock iterations failmax blocksize hopen hlock]
  rcases hLp : writerLoop env interval iterations failmax blocksize iterations 0 0
    (List.replicate (writeBufSize blocksize) 13) with ⟨tr, ex⟩
  constructor
  · intro hfm rec hrec hfa
    simp at hrec
    have h2 := loop_cap env interval iterations failmax blocksize hfm iterations 0 0
      (List.replicate (writeBufSize blocksize) 13) hfm rec (by rw [hLp]; simpa using hrec) hfa
    rw [hLp] at h2
    cases ex with
    | completed => simp at h2
    | fatalFail =>
      exact ⟨by simpa using h2.1, by simp, by simp⟩
  · intro h0
    subst h0
    have h3 := loop_fail0 env interval iterations blocksize iterations 0 0
      (List.replicate (writeBufSize blocksize) 13)
    rw [hLp] at h3
    cases ex with
    | completed => exact ⟨by simp, by simpa using h3.2⟩
    | fatalFail => simp at h3

/-- Witness for C2: with every write failing, `-c 5 -f 2` stops after
exactly two failed writes with process exit status 1. -/
theorem consecutive_failure_cap_check :
    envErr.openOk = true ∧ envErr.lockOk = true ∧ 0 < 2 ∧
    (⟨1, 2, [49, 10], .err, true, false, 1, 2, none⟩ : IterRec) ∈
      (line_writer envErr "f" 1 false 5 2 0).1 ∧
    (⟨1, 2, [49, 10], .err, true, false, 1, 2, none⟩ : IterRec).failuresAfter = 2 ∧
    ((line_writer envErr "f" 1 false 5 2 0).1.getLast? =
        some ⟨1, 2, [49, 10], .err, true, false, 1, 2, none⟩ ∧
      (line_writer envErr "f" 1 false 5 2 0).2 = .exited 1 ∧
      processExit envErr "f" 1 false 5 2 0 = 1) :=
  ⟨rfl, rfl, by decide, by decide, by decide,
    (consecutive_failure_cap envErr "f" 1 false 5 2 0 rfl rfl).1 (by decide)
      ⟨1, 2, [49, 10], .err, true, false, 1, 2, none⟩ (by decide) (by decide)⟩

/-- Claim C10: with `failmax > 0`, every iteration starts with the
consecutive-failure counter strictly below `failmax`, and the counter
never exceeds `failmax` after classification either. -/
theorem failure_counter_invariant (env : Env) (fn : String) (interval : Nat) (lock : Bool)
    (iterations failmax blocksize : Nat) (hfm : 0 < failmax) :
    ∀ rec ∈ (line_writer env fn interval lock iterations failmax blocksize).1,
      rec.failuresBefore < failmax ∧ rec.failuresAfter ≤ failmax := by
  intro rec hrec
  exact loop_inv env interval iterations failmax blocksize hfm iterations 0 0
    (List.replicate (writeBufSize blocksize) 13) hfm rec
    (line_writer_mem env fn interval lock iterations failmax blocksize rec hrec)

/-- Witness for C10: a failing single-iteration run with `failmax = 2`
starts the iteration with counter 0 and ends it with counter 1. -/
theorem failure_counter_invariant_check :
    0 < 2 ∧
    (⟨0, 2, [48, 10], .err, true, false, 0, 1, none⟩ : IterRec) ∈
      (line_writer envErr "f" 1 false 1 2 0).1 ∧
    ((⟨0, 2, [48, 10], .err, true, false, 0, 1, none⟩ : IterRec).failuresBefore < 2 ∧
      (⟨0, 2, [48, 10], .err, true, false, 0, 1, none⟩ : IterRec).failuresAfter ≤ 2) :=
  ⟨by decide, by decide,
    failure_counter_invariant envErr "f" 1 false 1 2 0 (by decide)
      ⟨0, 2, [48, 10], .err, true, false, 0, 1, none⟩ (by decide)⟩

/-- Claim C3: a write that returns without a hard error resets the
consecutive-failure counter to 0 and never triggers the failure report;
when the returned byte count differs from the request the informational
short-write notice runs — the failure accounting is identical to that of
a fully successful write. -/
theorem short_write_informational (env : Env) (fn : String) (interval : Nat) (lock : Bool)
    (iterations failmax blocksize : Nat) :
    ∀ rec ∈ (line_writer env fn interval lock iterations failmax blocksize).1,
      ∀ nn : Nat, rec.result = .wrote nn →
        rec.failuresAfter = 0 ∧ rec.failNotice = false ∧
          rec.shortNotice = (nn != rec.requested) := by
  intro rec hrec
  exact loop_wrote env interval iterations failmax blocksize iterations 0 0
    (List.replicate (writeBufSize blocksize) 13) rec
    (line_writer_mem env fn interval lock iterations failmax blocksize rec hrec)

/-- Witness for C3: a write that reports 1 of 2 requested bytes is marked
as a short write, is not counted as a failure, and resets the counter. -/
theorem short_write_informational_check :
    (⟨0, 2, [48, 10], .wrote 1, false, true, 0, 0, none⟩ : IterRec) ∈
      (line_writer envShort "f" 1 false 1 5 0).1 ∧
    (⟨0, 2, [48, 10], .wrote 1, false, true, 0, 0, none⟩ : IterRec).result = .wrote 1 ∧
    ((⟨0, 2, [48, 10], .wrote 1, false, true, 0, 0, none⟩ : IterRec).failuresAfter = 0 ∧
      (⟨0, 2, [48, 10], .wrote 1, false, true, 0, 0, none⟩ : IterRec).failNotice = false ∧
      (⟨0, 2, [48, 10], .wrote 1, false, true, 0, 0, none⟩ : IterRec).shortNotice =
        (1 != (⟨0, 2, [48, 10], .wrote 1, false, true, 0, 0, none⟩ : IterRec).requested)) :=
  ⟨by decide, by decide,
    short_write_informational envShort "f" 1 false 1 5 0
      ⟨0, 2, [48, 10], .wrote 1, false, true, 0, 0, none⟩ (by decide) 1 (by decide)⟩

/-- Claim C4: with `blocksize = 0` every write hands over exactly the
rendered iteration text (decimal index plus newline) and requests exactly
its length; with `blocksize > 0` every write requests exactly
`blocksize` bytes. -/
theorem payload_and_requested_bytes (env : Env) (fn : String) (interval : Nat) (lock : Bool)
    (iterations failmax blocksize : Nat) :
    ∀ rec ∈ (line_writer env fn interval lock iterations failmax blocksize).1,
      (blocksize = 0 →
        rec.requested = (strBytes rec.iter).length ∧ rec.payload = strBytes rec.iter) ∧
      (0 < blocksize → rec.requested = blocksize) := by
  intro rec hrec
  exact loop_requested env interval iterations failmax blocksize iterations 0 0
    (List.replicate (writeBufSize blocksize) 13) rec
    (line_writer_mem env fn interval lock iterations failmax blocksize rec hrec)

/-- Witness for C4: at iteration 1 of a `blocksize = 0` run, the write
requests 2 bytes and hands over the text `"1\n"`. -/
theorem payload_and_requested_bytes_check :
    (⟨1, 2, [49, 10], .wrote 2, false, false, 0, 0, none⟩ : IterRec) ∈
      (line_writer envText "f" 1 false 2 5 0).1 ∧
    ((0 = 0 →
        (⟨1, 2, [49, 10], .wrote 2, false, false, 0, 0, none⟩ : IterRec).requested =
          (strBytes (⟨1, 2, [49, 10], .wrote 2, false, false, 0, 0, none⟩ : IterRec).iter).length ∧
        (⟨1, 2, [49, 10], .wrote 2, false, false, 0, 0, none⟩ : IterRec).payload =
          strBytes (⟨1, 2, [49, 10], .wrote 2, false, false, 0, 0, none⟩ : IterRec).iter) ∧
      (0 < 0 →
        (⟨1, 2, [49, 10], .wrote 2, false, false, 0, 0, none⟩ : IterRec).requested = 0)) :=
  ⟨by decide,
    payload_and_requested_bytes envText "f" 1 false 2 5 0
      ⟨1, 2, [49, 10], .wrote 2, false, false, 0, 0, none⟩ (by decide)⟩

/-- Claim C7: a run that completes all `iterations` iterations produces one
record per index `0 .. iterations-1` in order, sleeps `interval` seconds
after every iteration except the last, and does not sleep after the last
iteration. -/
theorem sleep_between_iterations (env : Env) (fn : String) (interval : Nat) (lock : Bool)
    (iterations failmax blocksize : Nat)
    (hdone : (line_writer env fn interval lock iterations failmax blocksize).2 =
      .returned 0) :
    (line_writer env fn interval lock iterations failmax blocksize).1.map IterRec.iter =
      List.range iterations ∧
    (line_writer env fn interval lock iterations failmax blocksize).1.map
        IterRec.sleptAfter =
      (List.range iterations).map
        (fun j => if j + 1 < iterations then some interval else none) := by
  by_cases ho : env.openOk
  · by_cases hl : (lock && !env.lockOk) = true
    · simp [line_writer, ho, hl] at hdone
    · rcases hLp : writerLoop env interval iterations failmax blocksize iterations 0 0
        (List.replicate (writeBufSize blocksize) 13) with ⟨tr, ex⟩
      simp only [line_writer, ho, hl, hLp, Bool.not_true, Bool.false_eq_true,
        if_false] at hdone ⊢
      cases ex with
      | fatalFail => simp at hdone
      | completed =>
        have h2 := loop_completed env interval iterations failmax blocksize iterations 0 0
          (List.replicate (writeBufSize blocksize) 13) (by omega) (by rw [hLp])
        rw [hLp] at h2
        rw [List.range_eq_range']
        exact ⟨by simpa using h2.1, by simpa using h2.2⟩
  · simp [line_writer, ho] at hdone

/-- Witness for C7: a completed two-iteration run with `interval = 7`
sleeps 7 seconds after iteration 0 and does not sleep after iteration 1. -/
theorem sleep_between_iterations_check :
    (line_writer envText "f" 7 false 2 5 0).2 = .returned 0 ∧
    ((line_writer envText "f" 7 false 2 5 0).1.map IterRec.iter = List.range 2 ∧
      (line_writer envText "f" 7 false 2 5 0).1.map IterRec.sleptAfter =
        (List.range 2).map (fun j => if j + 1 < 2 then some 7 else none)) :=
  ⟨by decide, sleep_between_iterations envText "f" 7 false 2 5 0 (by decide)⟩

/-- Counterexample for C8: in a `blocksize = 4` run the first write hands
over `['0', '\n', NUL, '\r']` — the byte right after the text is the NUL
terminator copied by `strcpy`, not the `'\r'` filler, so the remainder
after the text is not made up of filler bytes only. -/
theorem payload_nul_byte_counterexample :
    (line_writer envBlock4 "f" 1 false 1 5 4).1.map IterRec.payload = [[48, 10, 0, 13]] ∧
    ([48, 10, 0, 13] : List Nat) ≠ strBytes 0 ++ List.replicate 2 13 := by decide

/-- Claim C8 (amended): the buffer is sized `max(blocksize, 1024)`,
allocated once before the loop and reused; with `blocksize > 0` every
payload is exactly `blocksize` bytes: the iteration text, then one NUL
byte copied by `strcpy` (when it fits), then `'\r'` filler bytes for the
remainder. -/
theorem block_payload_amended (env : Env) (fn : String) (interval : Nat) (lock : Bool)
    (iterations failmax blocksize : Nat) (hbs : 0 < blocksize)
    (hiter : iterations ≤ 666) :
    writeBufSize blocksize = max blocksize 1024 ∧
    ∀ rec ∈ (line_writer env fn interval lock iterations failmax blocksize).1,
      rec.payload.length = blocksize ∧
      ∀ p, p < blocksize → rec.payload.getD p 0 = payloadSpec rec.iter p := by
  constructor
  · rw [writeBufSize, BS_DEF]
    split <;> omega
  · intro rec hrec
    have hmem := line_writer_mem env fn interval lock iterations failmax blocksize rec hrec
    have hL : (List.replicate (writeBufSize blocksize) 13).length =
        writeBufSize blocksize := by simp
    refine loop_payload env interval iterations failmax blocksize hbs
      (writeBufSize blocksize) ?_ iterations 0 0
      (List.replicate (writeBufSize blocksize) 13) 0 hL ?_ ?_ ?_ rec hmem
    · rw [writeBufSize, BS_DEF]
      split <;> omega
    · intro i hi
      have h1 : numLen i ≤ 666 := by
        have h2 := numLen_mono (show i ≤ 665 by omega)
        have h3 := numLen_le_succ 665
        omega
      rw [strBytes_length, writeBufSize, BS_DEF]
      split <;> omega
    · intro p hp hpL
      exact getD_replicate hpL
    · exact Nat.zero_le _

/-- Witness for C8 (amended): in the `blocksize = 4` run the payload of
iteration 0 has length 4, and its byte at offset 3 matches the
characterization (a filler byte). -/
theorem block_payload_amended_check :
    0 < 4 ∧ 1 ≤ 666 ∧
    (⟨0, 4, [48, 10, 0, 13], .wrote 4, false, false, 0, 0, none⟩ : IterRec) ∈
      (line_writer envBlock4 "f" 1 false 1 5 4).1 ∧
    ((⟨0, 4, [48, 10, 0, 13], .wrote 4, false, false, 0, 0, none⟩ : IterRec).payload.length = 4 ∧
      (⟨0, 4, [48, 10, 0, 13], .wrote 4, false, false, 0, 0, none⟩ : IterRec).payload.getD 3 0 =
        payloadSpec (⟨0, 4, [48, 10, 0, 13], .wrote 4, false, false, 0, 0, none⟩ : IterRec).iter 3) := by
  have h := block_payload_amended envBlock4 "f" 1 false 1 5 4 (by decide) (by decide)
  have h2 := h.2 ⟨0, 4, [48, 10, 0, 13], .wrote 4, false, false, 0, 0, none⟩ (by decide)
  exact ⟨by decide, by decide, by decide, h2.1, h2.2 3 (by decide)⟩

/-- Claim C1 (code bug): when `open` fails (or the requested `flock`
fails), `line_writer` does return the failure code 1, but `main` discards
that return value and executes `return 0` (timed-writer.c:230-237), so
the process exit status is 0, not the non-zero status the specification
requires.  A run that completes all iterations does exit with status 0. -/
theorem exit_status_on_open_or_lock_failure :
    (line_writer envOpenFail "somefile" 5 false 666 5 0).2 = .returned 1 ∧
    runProcess envOpenFail ["somefile"] = 0 ∧
    (line_writer envLockFail "f" 5 true 666 5 0).2 = .returned 1 ∧
    runProcess envLockFail ["-l", "f"] = 0 ∧
    runProcess envText ["-c", "2", "f"] = 0 := by decide

/-- Counterexample for C5: `atol` turns the non-numeric argument `xyz`
into 0, which lies inside the `-f` bounds `[0, 100]`, so
`prog -f xyz out.txt` is accepted with `failmax = 0` instead of being
rejected; no validation error occurs and the process proceeds to the
file phase (shown here with a failing `open`, exiting 0). -/
theorem nonnumeric_failmax_accepted :
    parseArgs ["-f", "xyz", "out.txt"] =
      .run ⟨"out.txt", 5, 666, 0, 0, false⟩ ∧
    runProcess envOpenFail ["-f", "xyz", "out.txt"] = 0 := by decide

/-- Claim C5 (amended): each numeric flag argument is converted with
`atol`, which yields 0 for a non-numeric string; a converted value
outside the stated bounds (including 0 for `-s` and `-c`) is a fatal
error reported before any file is opened, and every validation error
exits the process with status 1.  Consequently non-numeric arguments are
rejected for `-s` and `-c` (their bounds exclude 0) but accepted as the
value 0 for `-f` and `-b`; the `-b` value is additionally truncated to
`int` width before its bounds check. -/
theorem flag_validation_amended :
    (∀ arg f : String, isOptToken f = false → f ≠ "--" →
      parseArgs ["-s", arg, f] =
        if atol arg.toList = 0 ∨ atol arg.toList > 3600 ∨ atol arg.toList < 1 then
          .configError ("Invalid sleep time: " ++ arg)
        else .run ⟨f, atol arg.toList, 666, 5, 0, false⟩) ∧
    (∀ arg f : String, isOptToken f = false → f ≠ "--" →
      parseArgs ["-c", arg, f] =
        if atol arg.toList ≤ 0 ∨ atol arg.toList > 666 then
          .configError ("Invalid max iterations: " ++ arg)
        else .run ⟨f, 5, atol arg.toList, 5, 0, false⟩) ∧
    (∀ arg f : String, isOptToken f = false → f ≠ "--" →
      parseArgs ["-f", arg, f] =
        if atol arg.toList < 0 ∨ atol arg.toList > 100 then
          .configError ("Invalid max consecutive write failures: " ++ arg)
        else .run ⟨f, 5, 666, atol arg.toList, 0, false⟩) ∧
    (∀ arg f : String, isOptToken f = false → f ≠ "--" →
      parseArgs ["-b", arg, f] =
        if wrap32 (atol arg.toList) < 0 ∨ wrap32 (atol arg.toList) > 33554432 then
          .configError ("Invalid write block size: " ++ arg)
        else .run ⟨f, 5, 666, 5, wrap32 (atol arg.toList), false⟩) ∧
    (∀ (env : Env) (args : List String) (m : String),
      parseArgs args = .configError m → runProcess env args = 1) :=
  ⟨fun arg f hf1 hf2 => parse_sleep_flag arg f hf1 hf2,
    fun arg f hf1 hf2 => parse_count_flag arg f hf1 hf2,
    fun arg f hf1 hf2 => parse_failmax_flag arg f hf1 hf2,
    fun arg f hf1 hf2 => parse_blocksize_flag arg f hf1 hf2,
    fun env args m h => configError_exit env args m h⟩

/-- Witness for C5 (amended): `-s 0` is rejected, and `-f xyz` is
accepted as the value 0. -/
theorem flag_validation_amended_check :
    isOptToken "out" = false ∧ ("out" : String) ≠ "--" ∧
    (parseArgs ["-s", "0", "out"] =
      if atol "0".toList = 0 ∨ atol "0".toList > 3600 ∨ atol "0".toList < 1 then
        .configError ("Invalid sleep time: " ++ "0")
      else .run ⟨"out", atol "0".toList, 666, 5, 0, false⟩) ∧
    (parseArgs ["-f", "xyz", "out"] =
      if atol "xyz".toList < 0 ∨ atol "xyz".toList > 100 then
        .configError ("Invalid max consecutive write failures: " ++ "xyz")
      else .run ⟨"out", 5, 666, atol "xyz".toList, 0, false⟩) :=
  ⟨by decide, by decide,
    flag_validation_amended.1 "0" "out" (by decide) (by decide),
    flag_validation_amended.2.2.1 "xyz" "out" (by decide) (by decide)⟩

/-- Claim C6: for a command line of non-option tokens, exactly one token
is accepted as the FILENAME (producing the run configuration with that
filename and the default settings); zero tokens or two or more tokens
are a fatal configuration error, and the process then exits with status 1
without reaching the file phase. -/
theorem single_filename_required (toks : List String) (env : Env)
    (h : ∀ t ∈ toks, isOptToken t = false ∧ t ≠ "--") :
    parseArgs toks =
      (if toks.length = 1 then
        MainResult.run ⟨toks.headD "", 5, 666, 5, 0, false⟩
      else MainResult.configError "Expecting one, and only one, FILENAME") ∧
    (toks.length ≠ 1 → runProcess env toks = 1) := by
  have hp : parseArgs toks = finishArgs initOpts toks := by
    have h2 := tokLoop_posOnly initOpts toks [] h
    simpa [parseArgs] using h2
  constructor
  · rw [hp]
    rcases toks with _ | ⟨a, _ | ⟨b, t⟩⟩
    · simp [finishArgs]
    · simp [finishArgs, initOpts]
    · rw [if_neg (by simp)]
      rfl
  · intro hne
    have h3 : parseArgs toks = .configError "Expecting one, and only one, FILENAME" := by
      rw [hp]
      rcases toks with _ | ⟨a, _ | ⟨b, t⟩⟩
      · rfl
      · simp at hne
      · rfl
    exact configError_exit env toks _ h3

/-- Witness for C6: two positional arguments are rejected with the
FILENAME error and exit status 1 (end-to-end scenario 4). -/
theorem single_filename_required_check :
    (∀ t ∈ (["a.txt", "b.txt"] : List String), isOptToken t = false ∧ t ≠ "--") ∧
    (parseArgs ["a.txt", "b.txt"] =
      (if (["a.txt", "b.txt"] : List String).length = 1 then
        MainResult.run ⟨(["a.txt", "b.txt"] : List String).headD "", 5, 666, 5, 0, false⟩
      else MainResult.configError "Expecting one, and only one, FILENAME")) ∧
    runProcess envText ["a.txt", "b.txt"] = 1 :=
  ⟨by decide,
    (single_filename_required ["a.txt", "b.txt"] envText (by decide)).1,
    (single_filename_required ["a.txt", "b.txt"] envText (by decide)).2 (by decide)⟩

/-- Counterexample for C9: options are processed left to right, so in
`prog -s 0 -h` the invalid `-s 0` aborts the process with a validation
error and exit status 1 before `-h` is ever seen — a command line
containing `-h` does not always exit successfully with usage. -/
theorem help_after_invalid_option :
    parseArgs ["-s", "0", "-h"] = .configError ("Invalid sleep time: " ++ "0") ∧
    runProcess envText ["-s", "0", "-h"] = 1 := by decide

/-- Claim C9 (amended): `-h` short-circuits all processing from the point
at which option scanning reaches it; in particular whenever `-h` is the
first argument the program prints usage and exits with status 0, no
matter what follows, and no file phase runs.  An option processed before
`-h` can still abort the process first. -/
theorem help_first_short_circuits (rest : List String) (env : Env) :
    parseArgs ("-h" :: rest) = .helpExit ∧ runProcess env ("-h" :: rest) = 0 := by
  have h : parseArgs ("-h" :: rest) = .helpExit := rfl
  exact ⟨h, by simp [runProcess, h]⟩

end TimedWriter
